import Mathlib

/-!
Verification of the simulation core of the vector_racing repository.

The embedding below translates, from the Python sources:
  * `game.py`     — the `LineSeg` / `LineSegs` undo-redo history and `Game.save` / `Game.load`
                    (namespace `Vg`);
  * `game_orbit.py` — the `GameHistory` log, `Player.update_force_vector` force quantizer,
                    the `Grid` affine view transform, `Game.step_physics`, `Game.toggle_gravity`
                    and the `K_u` (undo) key handler (namespace `Orbit`).

Python floats are embedded as exact rationals `ℚ` and Python ints as `ℤ`/`ℕ`.
Mutation is embedded as explicit state passing; a raised exception / `sys.exit`
is embedded as `Except`/`Option`.
-/

namespace Vg

/-- Source `game.py::LineSeg` — a line segment in grid coordinates; `start` and `end`
default to `None` in the source, hence the `Option` fields. -/
structure LineSeg where
  start : Option (Int × Int) := none
  «end» : Option (Int × Int) := none
deriving DecidableEq, Repr

/-- Source `game.py::LineSegs.__init__` state: `history`, play-head `head` and `size`.
`size` is kept as a separate field exactly as in the source. -/
structure LineSegs where
  history : List LineSeg
  head : Option Nat
  size : Nat
deriving DecidableEq, Repr

/-- The state built by `LineSegs.__init__`: empty history, `head = None`, `size = 0`. -/
def LineSegs.empty : LineSegs := { history := [], head := none, size := 0 }

/-- Source `game.py::LineSegs.move_head_forward`. -/
def LineSegs.move_head_forward (s : LineSegs) : LineSegs :=
  match s.head with
  | none => { s with head := some 0 }
  | some k => { s with head := some (min (s.size - 1) (k + 1)) }

/-- Source `game.py::LineSegs.record`: prune the future (everything past `head`),
append, and advance the head.  The comparison `self.head < self.size - 1` is on
Python ints with `head ≥ 0`; `Nat` subtraction agrees with it in every case
(`size = 0` makes both comparisons false). -/
def LineSegs.record (s : LineSegs) (l : LineSeg) : LineSegs :=
  let s :=
    match s.head with
    | none =>
      -- Prune the future before appending
      { s with size := 0, history := [] }
    | some k =>
      if k < s.size - 1 then
        -- Prune the future before appending
        { s with size := k + 1, history := s.history.take (k + 1) }
      else s
  let s := { s with history := s.history ++ [l], size := s.size + 1 }
  s.move_head_forward

/-- Source `game.py::LineSegs.undo`. -/
def LineSegs.undo (s : LineSegs) : LineSegs :=
  match s.head with
  | none => s
  | some 0 => { s with head := none }
  | some (k + 1) => { s with head := some k }

/-- Source `game.py::LineSegs.redo`. -/
def LineSegs.redo (s : LineSegs) : LineSegs :=
  s.move_head_forward

/-- Folding `record` over a list of entries (the replay loop in `Game.load`,
and the way any uninterrupted chain of `record` calls acts on a log). -/
def LineSegs.recordAll (s : LineSegs) (ls : List LineSeg) : LineSegs :=
  ls.foldl LineSegs.record s

end Vg

namespace Vg

/-- Lemma: `undo` moves only the head: the history list is untouched. -/
lemma LineSegs.undo_history (s : LineSegs) : s.undo.history = s.history := by
  rcases s with ⟨h, hd, sz⟩
  rcases hd with _ | (_ | k) <;> rfl

/-- Lemma: `redo` (= `move_head_forward`) moves only the head: the history list is untouched. -/
lemma LineSegs.redo_history (s : LineSegs) : s.redo.history = s.history := by
  rcases s with ⟨h, hd, sz⟩
  rcases hd with _ | k <;> rfl

/-- Iterated `redo` leaves the history list untouched. -/
lemma LineSegs.redo_iterate_history (s : LineSegs) (n : Nat) :
    (LineSegs.redo^[n] s).history = s.history := by
  induction n generalizing s with
  | zero => rfl
  | succ n ih =>
    rw [Function.iterate_succ_apply, ih, LineSegs.redo_history]

/-- Recording onto a log in canonical shape (`head` at the last element)
appends the entry and advances the head. -/
lemma LineSegs.record_snoc (l : List LineSeg) (hl : l ≠ []) (e : LineSeg) :
    LineSegs.record ⟨l, some (l.length - 1), l.length⟩ e
      = ⟨l ++ [e], some l.length, l.length + 1⟩ := by
  have hpos : 0 < l.length := List.length_pos.mpr hl
  unfold LineSegs.record
  simp only
  have hnot : ¬ (l.length - 1 < l.length - 1) := lt_irrefl _
  rw [if_neg hnot]
  unfold LineSegs.move_head_forward
  simp only [LineSegs.mk.injEq]
  refine ⟨trivial, ?_, trivial⟩
  congr 1
  omega

/-- Replaying a chain of records onto a canonical log appends all entries. -/
lemma LineSegs.recordAll_canonical (es : List LineSeg) :
    ∀ (l : List LineSeg), l ≠ [] →
      LineSegs.recordAll ⟨l, some (l.length - 1), l.length⟩ es
        = ⟨l ++ es, some ((l ++ es).length - 1), (l ++ es).length⟩ := by
  induction es with
  | nil => intro l hl; simp [LineSegs.recordAll]
  | cons e es ih =>
    intro l hl
    have h1 : LineSegs.recordAll ⟨l, some (l.length - 1), l.length⟩ (e :: es)
        = LineSegs.recordAll (LineSegs.record ⟨l, some (l.length - 1), l.length⟩ e) es := rfl
    rw [h1, LineSegs.record_snoc l hl e]
    have h4 : (⟨l ++ [e], some l.length, l.length + 1⟩ : LineSegs)
        = ⟨l ++ [e], some ((l ++ [e]).length - 1), (l ++ [e]).length⟩ := by simp
    rw [h4, ih (l ++ [e]) (by simp)]
    simp

/-- Replaying `e :: es` from the empty log yields the canonical log of `e :: es`. -/
lemma LineSegs.recordAll_empty (e : LineSeg) (es : List LineSeg) :
    LineSegs.recordAll LineSegs.empty (e :: es)
      = ⟨e :: es, some ((e :: es).length - 1), (e :: es).length⟩ := by
  have h1 : LineSegs.recordAll LineSegs.empty (e :: es)
      = LineSegs.recordAll (LineSegs.record LineSegs.empty e) es := rfl
  have h2 : LineSegs.record LineSegs.empty e = ⟨[e], some 0, 1⟩ := rfl
  rw [h1, h2]
  have h3 : ([e] : List LineSeg) ≠ [] := by simp
  have h4 : LineSegs.recordAll ⟨[e], some 0, 1⟩ es
      = LineSegs.recordAll ⟨[e], some (([e] : List LineSeg).length - 1), ([e] : List LineSeg).length⟩ es := rfl
  rw [h4, LineSegs.recordAll_canonical es [e] h3]
  simp

/-- Lemma: `j + 1` undos from `head = j` drive the head to `None`, history untouched. -/
lemma LineSegs.undo_iterate (j : Nat) :
    ∀ (l : List LineSeg) (sz : Nat),
      LineSegs.undo^[j + 1] ⟨l, some j, sz⟩ = ⟨l, none, sz⟩ := by
  induction j with
  | zero => intro l sz; rfl
  | succ j ih =>
    intro l sz
    rw [Function.iterate_succ_apply]
    have h1 : LineSegs.undo ⟨l, some (j + 1), sz⟩ = ⟨l, some j, sz⟩ := rfl
    rw [h1, ih]

/-- Lemma: `redo` steps the head forward while it stays in range. -/
lemma LineSegs.redo_iterate_in_range (j : Nat) :
    ∀ (i sz : Nat) (l : List LineSeg), i + j + 1 ≤ sz →
      LineSegs.redo^[j] ⟨l, some i, sz⟩ = ⟨l, some (i + j), sz⟩ := by
  induction j with
  | zero => intro i sz l _; rfl
  | succ j ih =>
    intro i sz l hle
    rw [Function.iterate_succ_apply]
    have h1 : LineSegs.redo ⟨l, some i, sz⟩ = ⟨l, some (min (sz - 1) (i + 1)), sz⟩ := rfl
    have h2 : min (sz - 1) (i + 1) = i + 1 := by omega
    rw [h1, h2, ih (i + 1) sz l (by omega)]
    congr 2
    omega

end Vg

namespace Orbit

/-- Source `game_orbit.py::LineSeg` — a directed segment in grid coordinates.  In the
claims under study every endpoint is a placed integer grid point, so the
`(None, None)` sentinel of the source lies outside the modelled domain. -/
structure LineSeg where
  start : Int × Int
  «end» : Int × Int
deriving DecidableEq, Repr

/-- Source `game_orbit.py::LineSeg.vector` — difference of endpoints. -/
def LineSeg.vector (l : LineSeg) : Int × Int :=
  (l.«end».1 - l.start.1, l.«end».2 - l.start.2)

/-- Source `game_orbit.py::Physics` — the struct holding the current turn's initial
segment, force vector, and final segment. -/
structure Physics where
  line_seg : LineSeg
  force_vector : Int × Int
  final_seg : LineSeg
deriving DecidableEq, Repr

/-- Source `game_orbit.py::GameHistory.__init__` state.  The source also keeps a
`line_colors` list, which `record` prunes but never appends to and which no
claim mentions; it is omitted. -/
structure GameHistory where
  line_segs : List LineSeg
  force_vectors : List (Int × Int)
  final_segs : List LineSeg
  head : Option Nat
  size : Nat
deriving DecidableEq, Repr

/-- The state built by `GameHistory.__init__`. -/
def GameHistory.empty : GameHistory :=
  { line_segs := [], force_vectors := [], final_segs := [], head := none, size := 0 }

/-- Source `game_orbit.py::GameHistory.move_head_forward`. -/
def GameHistory.move_head_forward (h : GameHistory) : GameHistory :=
  match h.head with
  | none => { h with head := some 0 }
  | some k => { h with head := some (min (h.size - 1) (k + 1)) }

/-- Source `game_orbit.py::GameHistory.record` — prune the future, append the three
components of `physics` in lockstep, and advance the head. -/
def GameHistory.record (h : GameHistory) (physics : Physics) : GameHistory :=
  let h :=
    match h.head with
    | none =>
      -- Prune the future before appending
      { h with size := 0, line_segs := [], force_vectors := [], final_segs := [] }
    | some k =>
      if k < h.size - 1 then
        -- Prune the future before appending
        { h with size := k + 1,
                 line_segs := h.line_segs.take (k + 1),
                 force_vectors := h.force_vectors.take (k + 1),
                 final_segs := h.final_segs.take (k + 1) }
      else h
  let h := { h with line_segs := h.line_segs ++ [physics.line_seg],
                    force_vectors := h.force_vectors ++ [physics.force_vector],
                    final_segs := h.final_segs ++ [physics.final_seg],
                    size := h.size + 1 }
  h.move_head_forward

/-- Source `game_orbit.py::GameHistory.undo`. -/
def GameHistory.undo (h : GameHistory) : GameHistory :=
  match h.head with
  | none => h
  | some 0 => { h with head := none }
  | some (k + 1) => { h with head := some k }

/-- Source `game_orbit.py::GameHistory.redo`. -/
def GameHistory.redo (h : GameHistory) : GameHistory :=
  h.move_head_forward

end Orbit

/-- Claim C1: starting from an empty `HistoryLog` (the `LineSegs` log of `game.py`;
`GameHistory` of `game_orbit.py` shares the identical head logic), the call
sequence `record e0; record e1; record e2; undo; undo; record e3` leaves the
log holding exactly `[e0, e3]` with `head = 1` and `size = 2`, and no number
of `redo` calls can bring `e1` or `e2` back: the stored list stays `[e0, e3]`
forever. -/
theorem claim_c1_branch_pruning (e0 e1 e2 e3 : Vg.LineSeg) :
    (((((Vg.LineSegs.empty.record e0).record e1).record e2).undo.undo).record e3)
      = ⟨[e0, e3], some 1, 2⟩
  ∧ ∀ n : Nat,
      (Vg.LineSegs.redo^[n]
        ((((((Vg.LineSegs.empty.record e0).record e1).record e2).undo.undo).record e3))).history
      = [e0, e3] := by
  constructor
  · rfl
  · intro n
    rw [Vg.LineSegs.redo_iterate_history]
    rfl

/-- Claim C2: from the empty log, recording `k+1` entries `e0..ek` puts the head at
`k`; `k+1` undos drive the head to `None` without touching the records; `k+1`
redos restore the entire state (head back at `k`, records unchanged); a
further `redo` at `head = size - 1` is a no-op; and `undo`/`redo` never mutate
the record list of any log. -/
theorem claim_c2_undo_redo_round_trip (es : List Vg.LineSeg) (k : Nat)
    (hk : es.length = k + 1) :
    (Vg.LineSegs.recordAll Vg.LineSegs.empty es).head = some k
  ∧ (Vg.LineSegs.undo^[k + 1] (Vg.LineSegs.recordAll Vg.LineSegs.empty es)).head = none
  ∧ (Vg.LineSegs.undo^[k + 1] (Vg.LineSegs.recordAll Vg.LineSegs.empty es)).history = es
  ∧ Vg.LineSegs.redo^[k + 1]
      (Vg.LineSegs.undo^[k + 1] (Vg.LineSegs.recordAll Vg.LineSegs.empty es))
      = Vg.LineSegs.recordAll Vg.LineSegs.empty es
  ∧ Vg.LineSegs.redo (Vg.LineSegs.recordAll Vg.LineSegs.empty es)
      = Vg.LineSegs.recordAll Vg.LineSegs.empty es
  ∧ ∀ t : Vg.LineSegs, t.undo.history = t.history ∧ t.redo.history = t.history := by
  rcases es with _ | ⟨e, es⟩
  · simp at hk
  have hcanon : Vg.LineSegs.recordAll Vg.LineSegs.empty (e :: es)
      = ⟨e :: es, some ((e :: es).length - 1), (e :: es).length⟩ :=
    Vg.LineSegs.recordAll_empty e es
  have hlen : (e :: es).length = k + 1 := hk
  have hcanon' : Vg.LineSegs.recordAll Vg.LineSegs.empty (e :: es)
      = ⟨e :: es, some k, k + 1⟩ := by
    rw [hcanon, hlen]
    simp
  rw [hcanon']
  have hundo : Vg.LineSegs.undo^[k + 1] (⟨e :: es, some k, k + 1⟩ : Vg.LineSegs)
      = ⟨e :: es, none, k + 1⟩ := Vg.LineSegs.undo_iterate k (e :: es) (k + 1)
  rw [hundo]
  refine ⟨rfl, rfl, rfl, ?_, ?_, ?_⟩
  · -- k+1 redos from head = None: first redo points at 0, then k in-range steps
    rw [Function.iterate_succ_apply]
    have h1 : Vg.LineSegs.redo (⟨e :: es, none, k + 1⟩ : Vg.LineSegs)
        = ⟨e :: es, some 0, k + 1⟩ := rfl
    rw [h1, Vg.LineSegs.redo_iterate_in_range k 0 (k + 1) (e :: es) (by omega)]
    simp
  · -- redo saturation at head = size - 1
    have h1 : Vg.LineSegs.redo (⟨e :: es, some k, k + 1⟩ : Vg.LineSegs)
        = ⟨e :: es, some (min (k + 1 - 1) (k + 1)), k + 1⟩ := rfl
    rw [h1]
    congr 2
    omega
  · intro t
    exact ⟨Vg.LineSegs.undo_history t, Vg.LineSegs.redo_history t⟩

/-- Claim C2 witness: the round trip at the concrete three-entry history
`[((1,2),(3,5)), ((-1,-2),(3,5)), ((-1,-2),(3,5))]` (the doctest sequence of
`game.py::LineSegs`), with `k = 2`. -/
theorem claim_c2_undo_redo_round_trip_witness :
    ([⟨some (1, 2), some (3, 5)⟩, ⟨some (-1, -2), some (3, 5)⟩,
        ⟨some (-1, -2), some (3, 5)⟩] : List Vg.LineSeg).length = 2 + 1
  ∧ (Vg.LineSegs.recordAll Vg.LineSegs.empty
      [⟨some (1, 2), some (3, 5)⟩, ⟨some (-1, -2), some (3, 5)⟩,
        ⟨some (-1, -2), some (3, 5)⟩]).head = some 2 :=
  ⟨rfl, (claim_c2_undo_redo_round_trip
    [⟨some (1, 2), some (3, 5)⟩, ⟨some (-1, -2), some (3, 5)⟩,
      ⟨some (-1, -2), some (3, 5)⟩] 2 rfl).1⟩

/-- Claim C3: the claim asserts that `redo()` on an empty log leaves the head
absent (`head = 0` only when `size > 0`).  The code has no such size guard:
`move_head_forward` sets `head = 0` unconditionally, so `redo` on the empty
log of either implementation yields `head = 0` with `size = 0` and an empty
record list — `head` is then not a valid index (`¬ 0 < size`), violating the
claimed invariant (and `game_orbit.py::draw_game_history` would then index
`line_segs[0]` of an empty list). -/
theorem claim_c3_redo_on_empty_log :
    Vg.LineSegs.empty.redo.head = some 0
  ∧ Vg.LineSegs.empty.redo.size = 0
  ∧ Vg.LineSegs.empty.redo.history = []
  ∧ ¬ 0 < Vg.LineSegs.empty.redo.size
  ∧ Orbit.GameHistory.empty.redo.head = some 0
  ∧ Orbit.GameHistory.empty.redo.size = 0
  ∧ Orbit.GameHistory.empty.redo.line_segs = [] := by
  refine ⟨rfl, rfl, rfl, ?_, rfl, rfl, rfl⟩
  decide

namespace Orbit

/-- Python's built-in `min` over a list (`none` on the empty list, which in
Python would raise `ValueError`). -/
def list_min : List Int → Option Int
  | [] => none
  | x :: xs =>
    match list_min xs with
    | none => some x
    | some m => some (min x m)

/-- Python's `list.index`: position of the first occurrence (the source only
calls it on a value known to be present). -/
def index_of (x : Int) : List Int → Nat
  | [] => 0
  | y :: ys => if y = x then 0 else index_of x ys + 1

/-- First element of a list satisfying a predicate. -/
def find_first {α : Type} (p : α → Bool) : List α → Option α
  | [] => none
  | a :: t => if p a then some a else find_first p t

/-- Lemma: `list_min` is `none` exactly on the empty list. -/
lemma list_min_eq_none {l : List Int} (h : list_min l = none) : l = [] := by
  cases l with
  | nil => rfl
  | cons x xs =>
    exfalso
    unfold list_min at h
    cases hxs : list_min xs <;> simp [hxs] at h

/-- The value `list_min` returns is a member of the list and a lower bound for it. -/
lemma list_min_spec : ∀ (l : List Int) (m : Int), list_min l = some m →
    m ∈ l ∧ ∀ b ∈ l, m ≤ b := by
  intro l
  induction l with
  | nil => intro m hm; simp [list_min] at hm
  | cons x xs ih =>
    intro m hm
    unfold list_min at hm
    cases hxs : list_min xs with
    | none =>
      rw [hxs] at hm
      have hnil := list_min_eq_none hxs
      subst hnil
      simp at hm
      subst hm
      simp
    | some m' =>
      rw [hxs] at hm
      simp at hm
      obtain ⟨hmem', hle'⟩ := ih m' hxs
      rcases le_total x m' with hx | hx
      · have : m = x := by omega
        subst this
        refine ⟨List.mem_cons_self _ _, ?_⟩
        intro b hb
        rcases List.mem_cons.mp hb with rfl | hb
        · exact le_refl _
        · exact le_trans hx (hle' b hb)
      · have : m = m' := by omega
        subst this
        refine ⟨List.mem_cons_of_mem _ hmem', ?_⟩
        intro b hb
        rcases List.mem_cons.mp hb with rfl | hb
        · exact hx
        · exact hle' b hb

/-- Indexing a list at the position of the first occurrence of a mapped value
is finding the first element mapping to that value. -/
lemma getD_index_of_map {α : Type} (q : α → Int) (M : Int) (d : α) :
    ∀ l : List α,
      l.getD (index_of M (l.map q)) d
        = (find_first (fun n => q n == M) l).getD d := by
  intro l
  induction l with
  | nil => rfl
  | cons a t ih =>
    show (a :: t).getD (if q a = M then 0 else index_of M (t.map q) + 1) d = _
    by_cases h : q a = M
    · rw [if_pos h]
      simp [find_first, h]
    · rw [if_neg h]
      have hb : (q a == M) = false := by simpa using h
      simp only [find_first, hb, Bool.false_eq_true, if_false, List.getD_cons_succ]
      exact ih

/-- Lemma: `find_first` only looks at predicate values on list members. -/
lemma find_first_congr {α : Type} {p p' : α → Bool} :
    ∀ l : List α, (∀ a ∈ l, p a = p' a) → find_first p l = find_first p' l := by
  intro l
  induction l with
  | nil => intro _; rfl
  | cons a t ih =>
    intro h
    have ha := h a (List.mem_cons_self _ _)
    unfold find_first
    rw [ha, ih fun b hb => h b (List.mem_cons_of_mem _ hb)]

/-- The fixed candidate list of `Player.update_force_vector`
(`game_orbit.py` line 666), in source order. -/
def norm_vectors : List (Int × Int) :=
  [(0, 0), (-1, 0), (1, 0), (0, 1), (0, -1), (-1, -1), (-1, 1), (1, 1), (1, -1)]

/-- Source `game_orbit.py::Player.update_force_vector`, as a function of the player's
position and the gravity setting, returning the force written to
`physics.force_vector`.  The displacement of candidate `n` is the `vector` of
`LineSeg((pos + n), (0, 0))`, i.e. `(0 - (pos + n))`; the chosen index is
`diff_quads.index(min(diff_quads))`.  The `none` arm of the match is
unreachable (the candidate list is nonempty), and `getD` stands for Python
indexing, whose index is in range here. -/
def update_force_vector (pos : Int × Int) (gravity_on : Bool) : Int × Int :=
  if gravity_on then
    let diff_vectors :=
      norm_vectors.map (fun n => ((0 : Int) - (pos.1 + n.1), (0 : Int) - (pos.2 + n.2)))
    let diff_quads := diff_vectors.map (fun d => d.1 ^ 2 + d.2 ^ 2)
    match list_min diff_quads with
    | none => (0, 0)
    | some m => norm_vectors.getD (index_of m diff_quads) (0, 0)
  else (0, 0)

/-- Squared distance to the attractor `(0, 0)` after applying candidate offset
`n` at position `pos` — the quantity the source calls `diff_quads`. -/
def sqdist (pos n : Int × Int) : Int :=
  ((0 : Int) - (pos.1 + n.1)) ^ 2 + ((0 : Int) - (pos.2 + n.2)) ^ 2

/-- Modelled from the spec's words (for comparison with the source):
"return the candidate offset achieving the minimum squared distance;
tie-break: first candidate in the fixed enumeration order wins". -/
def quantize_spec (pos : Int × Int) : Int × Int :=
  (find_first
      (fun n => norm_vectors.all (fun m => decide (sqdist pos n ≤ sqdist pos m)))
      norm_vectors).getD (0, 0)

/-- The source's `min` + `index` computation agrees with the spec's
"first minimizer in enumeration order" at every position. -/
lemma update_force_vector_eq_spec (pos : Int × Int) :
    update_force_vector pos true = quantize_spec pos := by
  unfold update_force_vector
  rw [if_pos rfl]
  dsimp only
  simp only [List.map_map]
  have hcomp : ((fun d : Int × Int => d.1 ^ 2 + d.2 ^ 2) ∘
      fun n : Int × Int => ((0 : Int) - (pos.1 + n.1), (0 : Int) - (pos.2 + n.2)))
      = fun n => sqdist pos n := funext fun n => rfl
  rw [hcomp]
  cases hmin : list_min (norm_vectors.map fun n => sqdist pos n) with
  | none =>
    exfalso
    have := list_min_eq_none hmin
    simp [norm_vectors] at this
  | some M =>
    obtain ⟨hMmem, hMle⟩ := list_min_spec _ _ hmin
    dsimp only
    rw [getD_index_of_map (fun n => sqdist pos n) M (0, 0) norm_vectors]
    unfold quantize_spec
    congr 1
    apply find_first_congr
    intro n hn
    have hn' : sqdist pos n ∈ norm_vectors.map fun n => sqdist pos n :=
      List.mem_map_of_mem _ hn
    rcases List.mem_map.mp hMmem with ⟨m0, hm0, hm0eq⟩
    by_cases heq : sqdist pos n = M
    · have hall : norm_vectors.all (fun m => decide (sqdist pos n ≤ sqdist pos m)) = true := by
        rw [List.all_eq_true]
        intro m hm
        have : M ≤ sqdist pos m := hMle _ (List.mem_map_of_mem _ hm)
        simpa [heq] using this
      show (sqdist pos n == M) = norm_vectors.all (fun m => decide (sqdist pos n ≤ sqdist pos m))
      rw [hall]
      simpa using heq
    · have hne : (sqdist pos n == M) = false := by simpa using heq
      have hnall : norm_vectors.all (fun m => decide (sqdist pos n ≤ sqdist pos m)) = false := by
        by_contra hcontra
        have hall : norm_vectors.all (fun m => decide (sqdist pos n ≤ sqdist pos m)) = true := by
          revert hcontra
          cases norm_vectors.all (fun m => decide (sqdist pos n ≤ sqdist pos m)) <;> simp
        rw [List.all_eq_true] at hall
        have h1 : sqdist pos n ≤ M := by
          have := hall m0 hm0
          simpa [hm0eq] using this
        have h2 : M ≤ sqdist pos n := hMle _ hn'
        exact heq (le_antisymm h1 h2)
      show (sqdist pos n == M) = norm_vectors.all (fun m => decide (sqdist pos n ≤ sqdist pos m))
      rw [hne, hnall]

end Orbit

/-- Claim C5: the force quantizer is a pure function of its arguments (hence
deterministic: identical inputs give identical results); with gravity
disabled it returns the zero vector; with gravity enabled it returns, among
the nine candidate offsets in the fixed enumeration order of the source,
the first one minimizing the squared distance of the resulting displacement
to the attractor `(0,0)` (`quantize_spec`, worded from the spec); and at the
attractor itself it returns `(0,0)`. -/
theorem claim_c5_force_quantizer (pos : Int × Int) :
    Orbit.update_force_vector pos false = (0, 0)
  ∧ Orbit.update_force_vector pos true = Orbit.quantize_spec pos
  ∧ Orbit.update_force_vector (0, 0) true = (0, 0) := by
  refine ⟨rfl, Orbit.update_force_vector_eq_spec pos, ?_⟩
  decide

namespace Orbit

/-- Source `game_orbit.py::Player.state` — two states after the cannon simplification. -/
inductive PlayerState where
  | pickPosition
  | stepPhysics
deriving DecidableEq, Repr

/-- The slice of `game_orbit.py::Player` the claims touch: position, anchored
initial position, state and per-player history. -/
structure Player where
  pos : Int × Int
  init_pos : Int × Int
  state : PlayerState
  game_history : GameHistory
deriving DecidableEq, Repr

/-- The slice of `game_orbit.py::Game` the claims touch: the active player,
the shared `physics` struct and the gravity setting
(`settings['setting_gravity_on']`). -/
structure Game where
  player : Player
  physics : Physics
  gravity_on : Bool
deriving DecidableEq, Repr

/-- The expression `LineSeg(l.start, (l.end[0]+v[0], l.end[1]+v[1]))` shared by
`handle_mousebuttondown_leftclick`, the `K_u` handler and `step_physics`:
the final segment obtained by adding force `v` to the endpoint of `l`. -/
def final_seg_of (l : LineSeg) (v : Int × Int) : LineSeg :=
  ⟨l.start, (l.«end».1 + v.1, l.«end».2 + v.2)⟩

/-- Source `game_orbit.py::Game.toggle_gravity` — flips the setting and overwrites
`physics.force_vector` with the hard-coded `(0,-1)` (gravity on) or `(0,0)`. -/
def Game.toggle_gravity (g : Game) : Game :=
  let g_on := !g.gravity_on
  { g with gravity_on := g_on,
           physics := { g.physics with force_vector := if g_on then (0, -1) else (0, 0) } }

/-- Source `game_orbit.py::Game.step_physics`.  `none` models abnormal termination:
`sys.exit` when `head == None` in state "Step physics", or the `IndexError`
of `final_segs[head]` when the head is out of range.  In state
"Pick position" the handler matches `case _: pass`.

The force is recomputed by `self.player.update_force_vector()` from the
player's *current* position — before `self.player.pos` is moved — and only
then read into `v`. -/
def Game.step_physics (g : Game) : Option Game :=
  match g.player.state with
  | .pickPosition => some g
  | .stepPhysics =>
    match g.player.game_history.head with
    | none => none
    | some head =>
      match g.player.game_history.final_segs.get? head with
      | none => none
      | some last_f =>
        let next_l : LineSeg :=
          ⟨(last_f.start.1 + last_f.vector.1, last_f.start.2 + last_f.vector.2),
           (last_f.«end».1 + last_f.vector.1, last_f.«end».2 + last_f.vector.2)⟩
        let force := update_force_vector g.player.pos g.gravity_on
        let next_f := final_seg_of next_l force
        some { g with
          player := { g.player with
            pos := next_f.«end»,
            game_history := g.player.game_history.record ⟨next_l, force, next_f⟩ },
          physics := { line_seg := next_l, force_vector := force, final_seg := next_f } }

/-- The history state after the first two lines of the `K_u` branch of
`game_orbit.py::Game.handle_keydown`: Shift+u sets `head = None` directly,
plain `u` calls `undo()`. -/
def Game.undone_history (g : Game) (shift : Bool) : GameHistory :=
  if shift then { g.player.game_history with head := none } else g.player.game_history.undo

/-- The `K_u` branch of `game_orbit.py::Game.handle_keydown`: after the undo,
if the head is `None` the handler rebuilds a zero-length segment at
`init_pos`, recomputes the force there, and records — so the head never
stays `None`; otherwise the player is moved to the final segment under the
head (`getD` models Python indexing, in range for reachable states). -/
def Game.handle_keydown_u (g : Game) (shift : Bool) : Game :=
  match (g.undone_history shift).head with
  | none =>
    { g with
      player := { g.player with
        pos := g.player.init_pos,
        game_history := (g.undone_history shift).record
          ⟨⟨g.player.init_pos, g.player.init_pos⟩,
           update_force_vector g.player.init_pos g.gravity_on,
           final_seg_of ⟨g.player.init_pos, g.player.init_pos⟩
             (update_force_vector g.player.init_pos g.gravity_on)⟩ },
      physics :=
        ⟨⟨g.player.init_pos, g.player.init_pos⟩,
         update_force_vector g.player.init_pos g.gravity_on,
         final_seg_of ⟨g.player.init_pos, g.player.init_pos⟩
           (update_force_vector g.player.init_pos g.gravity_on)⟩ }
  | some k =>
    { g with
      player := { g.player with
        pos := ((g.undone_history shift).final_segs.getD k ⟨(0, 0), (0, 0)⟩).«end»,
        game_history := g.undone_history shift } }

/-- The pre-step state of the spec's "linear carry" scenario: player placed at
`(0,4)`, one confirmed turn whose initial and final segments both run from
`(0,4)` to `(2,6)` with force `(0,0)` (gravity was off), then gravity is
enabled through `toggle_gravity`. -/
def c4_seg : LineSeg := ⟨(0, 4), (2, 6)⟩

/-- The scenario state of claim C4 just before `step()`. -/
def c4_pre : Game :=
  Game.toggle_gravity
    { player := { pos := (0, 4), init_pos := (0, 4), state := .stepPhysics,
                  game_history := { line_segs := [c4_seg], force_vectors := [(0, 0)],
                                    final_segs := [c4_seg], head := some 0, size := 1 } },
      physics := { line_seg := c4_seg, force_vector := (0, 0), final_seg := c4_seg },
      gravity_on := false }

end Orbit

/-- Claim C4 counterexample: in the spec's linear-carry scenario (state `c4_pre`:
player placed at `(0,4)`, first confirmed turn with initial vector `(2,2)`
ending at `(2,6)`, final segment ending at `(2,6)` with force `(0,0)`,
gravity then enabled), a single `step_physics` records a second turn whose
final segment ends at `(4,7)` — not `(6,9)` as the claim states. -/
theorem claim_c4_counterexample :
    (Orbit.Game.step_physics Orbit.c4_pre).map
        (fun st => (st.player.game_history.final_segs.getD 1 ⟨(0, 0), (0, 0)⟩).«end»)
      = some (4, 7)
  ∧ some ((4, 7) : Int × Int) ≠ some ((6, 9) : Int × Int) := by
  refine ⟨rfl, ?_⟩
  decide

/-- Claim C4 amended: in the linear-carry scenario, with gravity off the confirmed
final segment is the initial segment unchanged (force `(0,0)`), ending at
`(2,6)`; after enabling gravity, one `step_physics` builds `nextInitial` by
translating the previous final segment by its own vector `(2,2)` (giving the
segment `(2,6) → (4,8)`), recomputes the force with the quantizer at the
player's position `(0,4)` (giving `(0,-1)`, overwriting the `(0,-1)` set by
`toggle_gravity`), and records a second turn with
`history.records[1].final.end == (4,7)` and the head at index 1. -/
theorem claim_c4_linear_carry_amended :
    Orbit.final_seg_of Orbit.c4_seg (0, 0) = Orbit.c4_seg
  ∧ Orbit.c4_seg.vector = (2, 2)
  ∧ Orbit.update_force_vector (0, 4) true = (0, -1)
  ∧ (Orbit.Game.step_physics Orbit.c4_pre).map
        (fun st =>
          (st.physics.line_seg,
           st.physics.line_seg.vector,
           st.physics.force_vector,
           (st.player.game_history.final_segs.getD 1 ⟨(0, 0), (0, 0)⟩).«end»,
           st.player.game_history.head,
           st.player.game_history.size))
      = some (⟨(2, 6), (4, 8)⟩, (2, 2), (0, -1), (4, 7), some 1, 2) := by
  refine ⟨rfl, rfl, by decide, rfl⟩

/-- Recording on a log whose head is `None` discards everything and leaves a
single entry with the head at index 0. -/
lemma orbit_record_of_head_none (h : Orbit.GameHistory) (hn : h.head = none)
    (ph : Orbit.Physics) :
    h.record ph
      = ⟨[ph.line_seg], [ph.force_vector], [ph.final_seg], some 0, 1⟩ := by
  unfold Orbit.GameHistory.record
  rw [hn]
  rfl

/-- Claim C10: after any `K_u` undo command (`u` or Shift+u) handled by
`handle_keydown_u`, the active player's history head is present; in
particular, whenever the undo drove the head to `None`, the handler has reset
the player to `init_pos`, recorded a zero-length segment there with the
recomputed force, and pruned all prior records: `head = 0`, `size = 1`, and
the stored segment lists hold exactly the single new turn at `init_pos`. -/
theorem claim_c10_undo_never_leaves_head_absent (g : Orbit.Game) (shift : Bool) :
    (g.handle_keydown_u shift).player.game_history.head ≠ none
  ∧ ((g.undone_history shift).head = none →
        (g.handle_keydown_u shift).player.game_history.head = some 0
      ∧ (g.handle_keydown_u shift).player.game_history.size = 1
      ∧ (g.handle_keydown_u shift).player.game_history.line_segs
          = [⟨g.player.init_pos, g.player.init_pos⟩]
      ∧ (g.handle_keydown_u shift).player.game_history.final_segs
          = [Orbit.final_seg_of ⟨g.player.init_pos, g.player.init_pos⟩
               (Orbit.update_force_vector g.player.init_pos g.gravity_on)]
      ∧ (g.handle_keydown_u shift).player.pos = g.player.init_pos) := by
  cases hd : (g.undone_history shift).head with
  | none =>
    have hrec := orbit_record_of_head_none (g.undone_history shift) hd
      ⟨⟨g.player.init_pos, g.player.init_pos⟩,
       Orbit.update_force_vector g.player.init_pos g.gravity_on,
       Orbit.final_seg_of ⟨g.player.init_pos, g.player.init_pos⟩
         (Orbit.update_force_vector g.player.init_pos g.gravity_on)⟩
    constructor
    · simp only [Orbit.Game.handle_keydown_u, hd, hrec]
      simp [Orbit.GameHistory.move_head_forward]
    · intro _
      refine ⟨?_, ?_, ?_, ?_, ?_⟩ <;>
        simp [Orbit.Game.handle_keydown_u, hd, hrec, Orbit.GameHistory.move_head_forward]
  | some k =>
    constructor
    · simp only [Orbit.Game.handle_keydown_u, hd]
      simp
    · intro habs
      exact Option.noConfusion habs

/-- Claim C10 witness: the Shift+u command on a concrete placed player with one
recorded turn: the post-undo head is `None` and the handler leaves the head
at index 0 with a single pruned-and-rerecorded entry. -/
theorem claim_c10_undo_never_leaves_head_absent_witness :
    (Orbit.Game.undone_history
        { player := { pos := (4, 7), init_pos := (0, 4), state := .stepPhysics,
                      game_history := { line_segs := [⟨(0, 4), (2, 6)⟩], force_vectors := [(0, 0)],
                                        final_segs := [⟨(0, 4), (2, 6)⟩], head := some 0, size := 1 } },
          physics := { line_seg := ⟨(0, 4), (2, 6)⟩, force_vector := (0, 0),
                       final_seg := ⟨(0, 4), (2, 6)⟩ },
          gravity_on := true } true).head = none
  ∧ (Orbit.Game.handle_keydown_u
        { player := { pos := (4, 7), init_pos := (0, 4), state := .stepPhysics,
                      game_history := { line_segs := [⟨(0, 4), (2, 6)⟩], force_vectors := [(0, 0)],
                                        final_segs := [⟨(0, 4), (2, 6)⟩], head := some 0, size := 1 } },
          physics := { line_seg := ⟨(0, 4), (2, 6)⟩, force_vector := (0, 0),
                       final_seg := ⟨(0, 4), (2, 6)⟩ },
          gravity_on := true } true).player.game_history.head = some 0 :=
  ⟨rfl,
   ((claim_c10_undo_never_leaves_head_absent
      { player := { pos := (4, 7), init_pos := (0, 4), state := .stepPhysics,
                    game_history := { line_segs := [⟨(0, 4), (2, 6)⟩], force_vectors := [(0, 0)],
                                      final_segs := [⟨(0, 4), (2, 6)⟩], head := some 0, size := 1 } },
        physics := { line_seg := ⟨(0, 4), (2, 6)⟩, force_vector := (0, 0),
                     final_seg := ⟨(0, 4), (2, 6)⟩ },
        gravity_on := true } true).2 rfl).1⟩

namespace Orbit

/-- Python's built-in `round` (banker's rounding: ties go to the even
integer), as used by `int(round(x))` in `Grid.xfm_pg`. -/
def py_round (q : ℚ) : ℤ :=
  let n := ⌊q⌋
  let r := q - n
  if r < 1 / 2 then n
  else if 1 / 2 < r then n + 1
  else if n % 2 = 0 then n else n + 1

/-- Lemma: `py_round` is the identity on integers. -/
lemma py_round_intCast (n : ℤ) : py_round (n : ℚ) = n := by
  unfold py_round
  rw [Int.floor_intCast]
  norm_num

/-- Source `game_orbit.py::Grid` — the affine view transform: 2×2 linear part
`[a, b; c, d]`, pixel-space translation `(e, f)`, zoom `scale`, grid extent
`N`, and the OS-window size the source reads from `self.game.os_window.size`.
Python floats are embedded as exact rationals. -/
structure Grid where
  N : Int
  win_w : Int
  win_h : Int
  a : ℚ
  b : ℚ
  c : ℚ
  d : ℚ
  e : ℚ
  f : ℚ
  scale : ℚ
deriving DecidableEq, Repr

/-- Source `game_orbit.py::Grid.zoom_to_fit` — scale so the `N×N` grid plus a fixed
margin of 10 pixels fits the window. -/
def Grid.zoom_to_fit (g : Grid) : ℚ :=
  let size_p : ℚ × ℚ := (g.a * (g.N : ℚ) + g.b * (g.N : ℚ), g.c * (g.N : ℚ) + g.d * (g.N : ℚ))
  let size_p : ℚ × ℚ := (|size_p.1| + 10, |size_p.2| + 10)
  let scale_x := (g.win_w : ℚ) / size_p.1
  let scale_y := (g.win_h : ℚ) / size_p.2
  min scale_x scale_y

/-- Source `game_orbit.py::Grid.reset` — top-down linear part `[1, 0; 0, -1]`,
translation at the window centre (`int(size/2)`, truncating division), then
`scale = zoom_to_fit()`. -/
def Grid.reset (g : Grid) : Grid :=
  let g := { g with a := (1 : ℚ), b := (0 : ℚ), c := (0 : ℚ), d := (-1 : ℚ),
                    e := ((g.win_w / 2 : Int) : ℚ), f := ((g.win_h / 2 : Int) : ℚ) }
  { g with scale := g.zoom_to_fit }

/-- Source `game_orbit.py::Grid.scaled` — the 2×2 linear part multiplied by `scale`. -/
def Grid.scaled (g : Grid) : ℚ × ℚ × ℚ × ℚ :=
  (g.a * g.scale, g.b * g.scale, g.c * g.scale, g.d * g.scale)

/-- The local `det = a*d - b*c` computed on `scaled()` inside `Grid.det`. -/
def Grid.det_raw (g : Grid) : ℚ :=
  g.scaled.1 * g.scaled.2.2.2 - g.scaled.2.1 * g.scaled.2.2.1

/-- Source `game_orbit.py::Grid.det` — the guarded determinant: if the raw value is
exactly zero, the source returns the small epsilon `0.0001` (embedded as the
exact rational `1/10000`) instead of letting the inverse divide by zero. -/
def Grid.det (g : Grid) : ℚ :=
  if g.det_raw = 0 then 1 / 10000 else g.det_raw

/-- Source `game_orbit.py::Grid.xfm_gp` — grid to pixel: `scaled · point + (e, f)`. -/
def Grid.xfm_gp (g : Grid) (point : ℚ × ℚ) : ℚ × ℚ :=
  let a := g.scaled.1
  let b := g.scaled.2.1
  let c := g.scaled.2.2.1
  let d := g.scaled.2.2.2
  (a * point.1 + b * point.2 + g.e, c * point.1 + d * point.2 + g.f)

/-- Source `game_orbit.py::Grid.xfm_pg` at the default precision `p = 0` — pixel to
grid via the closed-form inverse (Cramer's rule) and `int(round(·))`.
The `p ≠ 0` branch of the source is not used by the claims. -/
def Grid.xfm_pg (g : Grid) (point : ℚ × ℚ) : Int × Int :=
  let a := g.scaled.1
  let b := g.scaled.2.1
  let c := g.scaled.2.2.1
  let d := g.scaled.2.2.2
  let det := g.det
  (py_round ((d / det) * point.1 + (-1 * b / det) * point.2 + (b * g.f - d * g.e) / det),
   py_round ((-1 * c / det) * point.1 + (a / det) * point.2 + (c * g.e - a * g.f) / det))

/-- Source `game_orbit.py::Grid.zoom_in`. -/
def Grid.zoom_in (g : Grid) : Grid := { g with scale := g.scale * (11 / 10) }

/-- Source `game_orbit.py::Grid.zoom_out`. -/
def Grid.zoom_out (g : Grid) : Grid := { g with scale := g.scale * (9 / 10) }

/-- Source `game_orbit.py::Grid.pan` — `(e, f) = pan_origin + (mpos - pan_ref)`.
In the source `pan_origin` and `pan_ref` are fields stored by the mouse
handlers (`pan_origin` is the `(e, f)` at pan start, `pan_ref` the mouse
position at pan start); here they are passed as arguments. -/
def Grid.pan (g : Grid) (pan_origin pan_ref mpos : ℚ × ℚ) : Grid :=
  { g with e := pan_origin.1 + (mpos.1 - pan_ref.1),
           f := pan_origin.2 + (mpos.2 - pan_ref.2) }

/-- The pan/zoom states reachable through the public mutators: every grid is
created by `reset` (`Grid.__init__` calls it, and window-resize/fullscreen
call it again), with a positive window, and then modified only by
`zoom_in`, `zoom_out` and `pan`. -/
inductive Grid.Reachable : Grid → Prop
  | reset (g : Grid) (hw : 0 < g.win_w) (hh : 0 < g.win_h) : Grid.Reachable g.reset
  | zoom_in {g : Grid} : Grid.Reachable g → Grid.Reachable g.zoom_in
  | zoom_out {g : Grid} : Grid.Reachable g → Grid.Reachable g.zoom_out
  | pan {g : Grid} (pan_origin pan_ref mpos : ℚ × ℚ) :
      Grid.Reachable g → Grid.Reachable (g.pan pan_origin pan_ref mpos)

/-- Every reachable grid keeps the reset linear part `[1, 0; 0, -1]` and a
strictly positive scale. -/
lemma Grid.reachable_inv {g : Grid} (h : Grid.Reachable g) :
    g.a = 1 ∧ g.b = 0 ∧ g.c = 0 ∧ g.d = -1 ∧ 0 < g.scale := by
  induction h with
  | reset g0 hw hh =>
    refine ⟨rfl, rfl, rfl, rfl, ?_⟩
    show 0 < Grid.zoom_to_fit _
    unfold Grid.zoom_to_fit
    dsimp only
    have hw' : (0 : ℚ) < (g0.win_w : ℚ) := by exact_mod_cast hw
    have hh' : (0 : ℚ) < (g0.win_h : ℚ) := by exact_mod_cast hh
    apply lt_min <;> apply div_pos
    · exact hw'
    · positivity
    · exact hh'
    · positivity
  | zoom_in _ ih =>
    exact ⟨ih.1, ih.2.1, ih.2.2.1, ih.2.2.2.1, by
      have := ih.2.2.2.2
      have h11 : (0 : ℚ) < 11 / 10 := by norm_num
      exact mul_pos this h11⟩
  | zoom_out _ ih =>
    exact ⟨ih.1, ih.2.1, ih.2.2.1, ih.2.2.2.1, by
      have := ih.2.2.2.2
      have h9 : (0 : ℚ) < 9 / 10 := by norm_num
      exact mul_pos this h9⟩
  | pan pan_origin pan_ref mpos _ ih => exact ih

/-- On any grid with the reset linear part and a nonzero scale, `xfm_pg`
inverts `xfm_gp` exactly on integer grid points. -/
lemma Grid.roundtrip {g : Grid} (ha : g.a = 1) (hb : g.b = 0) (hc : g.c = 0)
    (hd : g.d = -1) (hs : 0 < g.scale) (p : Int × Int) :
    g.xfm_pg (g.xfm_gp ((p.1 : ℚ), (p.2 : ℚ))) = p := by
  have hsne : g.scale ≠ 0 := ne_of_gt hs
  have hscaled : g.scaled = (g.scale, 0, 0, -g.scale) := by
    simp [Grid.scaled, ha, hb, hc, hd]
  have hdetraw : g.det_raw = -(g.scale * g.scale) := by
    simp [Grid.det_raw, hscaled]
  have hdetne : g.det_raw ≠ 0 := by
    rw [hdetraw]
    simpa using mul_self_ne_zero.mpr hsne
  have hdet : g.det = -(g.scale * g.scale) := by
    unfold Grid.det
    rw [if_neg hdetne]
    exact hdetraw
  unfold Grid.xfm_pg Grid.xfm_gp
  rw [hscaled, hdet]
  dsimp only
  refine Prod.ext ?_ ?_
  · convert py_round_intCast p.1 using 2
    field_simp
    ring
  · convert py_round_intCast p.2 using 2
    field_simp
    ring

/-- The grid state produced by `Grid(game, N=40)` with a `1000×1000` window:
`__init__` stores `N` and calls `reset()`.  The pre-reset field values are
irrelevant (reset overwrites them); they are given the post-reset values. -/
def grid1000 : Grid :=
  Grid.reset
    { N := 40, win_w := 1000, win_h := 1000,
      a := 1, b := 0, c := 0, d := -1, e := 0, f := 0, scale := 1 }

end Orbit

/-- Claim C6: on every pan/zoom state reachable through the public mutators
(`reset` with a positive window, `zoom_in`, `zoom_out`, `pan`), `xfm_pg`
(default precision 0) inverts `xfm_gp` exactly on every integer grid point —
in particular on every point within the visible extent; for the transform
reset to fit an `N = 40` grid in a `1000×1000` window, the round trip fixes
`(5,5)` and `(-20,20)`. -/
theorem claim_c6_transform_round_trip :
    (∀ g : Orbit.Grid, Orbit.Grid.Reachable g → ∀ p : Int × Int,
        g.xfm_pg (g.xfm_gp ((p.1 : ℚ), (p.2 : ℚ))) = p)
  ∧ Orbit.grid1000.xfm_pg (Orbit.grid1000.xfm_gp ((5 : ℚ), (5 : ℚ))) = (5, 5)
  ∧ Orbit.grid1000.xfm_pg (Orbit.grid1000.xfm_gp ((-20 : ℚ), (20 : ℚ))) = (-20, 20) := by
  have hmain : ∀ g : Orbit.Grid, Orbit.Grid.Reachable g → ∀ p : Int × Int,
      g.xfm_pg (g.xfm_gp ((p.1 : ℚ), (p.2 : ℚ))) = p := by
    intro g hg p
    obtain ⟨ha, hb, hc, hd, hs⟩ := Orbit.Grid.reachable_inv hg
    exact Orbit.Grid.roundtrip ha hb hc hd hs p
  have hreach : Orbit.Grid.Reachable Orbit.grid1000 :=
    Orbit.Grid.Reachable.reset _ (by decide) (by decide)
  exact ⟨hmain, hmain _ hreach (5, 5), hmain _ hreach (-20, 20)⟩

/-- Claim C6 witness: the general round-trip theorem applied at the concrete
reachable state `grid1000` and the grid point `(5, 5)`. -/
theorem claim_c6_transform_round_trip_witness :
    Orbit.Grid.Reachable Orbit.grid1000
  ∧ Orbit.grid1000.xfm_pg (Orbit.grid1000.xfm_gp ((5 : ℚ), (5 : ℚ))) = (5, 5) :=
  ⟨Orbit.Grid.Reachable.reset _ (by decide) (by decide),
   claim_c6_transform_round_trip.1 Orbit.grid1000
     (Orbit.Grid.Reachable.reset _ (by decide) (by decide)) (5, 5)⟩

/-- A grid whose scaled linear map is singular (`scale = 0`), exercising the
epsilon branch of `Grid.det`. -/
def Orbit.grid_degenerate : Orbit.Grid :=
  { N := 40, win_w := 1000, win_h := 1000,
    a := 1, b := 0, c := 0, d := -1, e := 500, f := 500, scale := 0 }

/-- Claim C7: `xfm_pg` never divides by zero.  On every reachable pan/zoom state
the raw determinant `a*d - b*c` of the scaled linear map is nonzero; on
*every* grid state whatsoever the guarded `det` used by `xfm_pg` is nonzero,
because when the raw determinant is exactly zero the source substitutes the
epsilon `0.0001` (the exact rational `1/10000`) instead of raising — so
`xfm_pg` is a total function. -/
theorem claim_c7_det_never_zero :
    (∀ g : Orbit.Grid, Orbit.Grid.Reachable g → g.det_raw ≠ 0)
  ∧ (∀ g : Orbit.Grid, g.det ≠ 0)
  ∧ (∀ g : Orbit.Grid, g.det_raw = 0 → g.det = 1 / 10000) := by
  refine ⟨?_, ?_, ?_⟩
  · intro g hg
    obtain ⟨ha, hb, hc, hd, hs⟩ := Orbit.Grid.reachable_inv hg
    have hsne : g.scale ≠ 0 := ne_of_gt hs
    have hdetraw : g.det_raw = -(g.scale * g.scale) := by
      simp [Orbit.Grid.det_raw, Orbit.Grid.scaled, ha, hb, hc, hd]
    rw [hdetraw]
    simpa using mul_self_ne_zero.mpr hsne
  · intro g
    unfold Orbit.Grid.det
    by_cases h : g.det_raw = 0
    · rw [if_pos h]
      norm_num
    · rw [if_neg h]
      exact h
  · intro g h
    unfold Orbit.Grid.det
    rw [if_pos h]

/-- Claim C7 witness: the theorem applied at the reachable state `grid1000`
(raw determinant `-400 ≠ 0`) and at the singular state `grid_degenerate`
(raw determinant exactly 0, guarded `det = 1/10000 ≠ 0`). -/
theorem claim_c7_det_never_zero_witness :
    Orbit.Grid.Reachable Orbit.grid1000
  ∧ Orbit.grid1000.det_raw ≠ 0
  ∧ Orbit.grid_degenerate.det_raw = 0
  ∧ Orbit.grid_degenerate.det = 1 / 10000
  ∧ Orbit.grid_degenerate.det ≠ 0 :=
  ⟨Orbit.Grid.Reachable.reset _ (by decide) (by decide),
   claim_c7_det_never_zero.1 Orbit.grid1000
     (Orbit.Grid.Reachable.reset _ (by decide) (by decide)),
   by norm_num [Orbit.grid_degenerate, Orbit.Grid.det_raw, Orbit.Grid.scaled],
   claim_c7_det_never_zero.2.2 Orbit.grid_degenerate
     (by norm_num [Orbit.grid_degenerate, Orbit.Grid.det_raw, Orbit.Grid.scaled]),
   claim_c7_det_never_zero.2.1 Orbit.grid_degenerate⟩

namespace Vg

/-- The `settings` dict of `game.py::Game.__init__`. -/
structure Settings where
  setting_lock_ortho : Bool
  setting_show_debugHud : Bool
deriving DecidableEq, Repr

/-- The `GraphPaper` fields that `Game.save` serializes and `Game.load`
restores. -/
structure GraphPaper where
  N : Int
  margin : Int
  show_paper : Bool
  show_grid : Bool
deriving DecidableEq, Repr

/-- The slice of `game.py::Game` that `save`/`load` touch. -/
structure Game where
  settings : Settings
  graphPaper : GraphPaper
  lineSegs : LineSegs
deriving DecidableEq, Repr

/-- The serialized `lineSegs` JSON object: the saved `head` and the history as
a list of entries, each entry a JSON array of points (`(start, end)` pairs
when well-formed; a malformed entry may have fewer fields). -/
structure SaveLineSegs where
  head : Option Nat
  history : List (List (Option (Int × Int)))
deriving DecidableEq, Repr

/-- The JSON save data of `game.py::Game.save`; a `none` top-level field
models a missing key (whose access raises `KeyError` in the source). -/
structure SaveData where
  settings : Option Settings
  graphPaper : Option GraphPaper
  lineSegs : Option SaveLineSegs
deriving DecidableEq, Repr

/-- Source `game.py::Game.save` — serializes the settings, the four graph-paper
fields, and the history as `(lineSeg.start, lineSeg.end)` pairs plus `head`. -/
def Game.save (g : Game) : SaveData :=
  { settings := some g.settings,
    graphPaper := some g.graphPaper,
    lineSegs := some { head := g.lineSegs.head,
                       history := g.lineSegs.history.map (fun l => [l.start, l.«end»]) } }

/-- The replay loop of `game.py::Game.load`: `record(LineSeg(entry[0],
entry[1]))` for each saved entry.  An entry with fewer than two fields makes
`entry[1]` raise `IndexError`; the `error` carries the partially rebuilt log
the source leaves behind in `self.lineSegs`. -/
def load_replay (ls : LineSegs) :
    List (List (Option (Int × Int))) → Except LineSegs LineSegs
  | [] => .ok ls
  | entry :: rest =>
    match entry with
    | s :: e :: _ => load_replay (ls.record ⟨s, e⟩) rest
    | _ => .error ls

/-- Source `game.py::Game.load` — assigns `settings`, then the four graph-paper
fields, then *replaces* `self.lineSegs` with a fresh log, replays `record`
over the saved pairs, and finally sets `head` directly from the saved value.
A raised `KeyError`/`IndexError` is modelled as `Except.error` carrying the
in-memory state at the moment it is raised — every field assigned before the
failing key access keeps its new value, exactly as in the source, where the
statements run in this order and nothing catches the exception. -/
def Game.load (g : Game) (d : SaveData) : Except Game Game :=
  match d.settings with
  | none => .error g
  | some s =>
    let g1 : Game := { g with settings := s }
    match d.graphPaper with
    | none => .error g1
    | some gp =>
      let g2 : Game := { g1 with graphPaper := gp }
      let g3 : Game := { g2 with lineSegs := LineSegs.empty }
      match d.lineSegs with
      | none => .error g3
      | some dls =>
        match load_replay LineSegs.empty dls.history with
        | .error ls => .error { g3 with lineSegs := ls }
        | .ok ls => .ok { g3 with lineSegs := { ls with head := dls.head } }

end Vg

/-- Claim C8: record three entries, undo once (head at 1), save, load into a fresh
game: the loaded history has `size = 3`, `head = 1`, and the three records
identical to the originals; `load` replays `record()` over the saved pairs
in order and then sets `head` directly to the saved value, reproducing the
pre-save undo/redo position exactly. -/
theorem claim_c8_save_load_round_trip (g g2 : Vg.Game) (e0 e1 e2 : Vg.LineSeg) :
    (Vg.LineSegs.undo (Vg.LineSegs.recordAll Vg.LineSegs.empty [e0, e1, e2])).head = some 1
  ∧ Vg.Game.load g2
      (Vg.Game.save
        { g with lineSegs := Vg.LineSegs.undo (Vg.LineSegs.recordAll Vg.LineSegs.empty [e0, e1, e2]) })
      = Except.ok
          { settings := g.settings, graphPaper := g.graphPaper,
            lineSegs := { history := [e0, e1, e2], head := some 1, size := 3 } } :=
  ⟨rfl, rfl⟩

/-- A concrete in-memory game state (the `Game.__init__` values of `game.py`:
`lock_ortho = False`, `show_debugHud = True`, `N = 40`, `margin = 10`,
`show_paper = False`, `show_grid = True`, empty history). -/
def c9_game0 : Vg.Game :=
  { settings := { setting_lock_ortho := false, setting_show_debugHud := true },
    graphPaper := { N := 40, margin := 10, show_paper := false, show_grid := true },
    lineSegs := Vg.LineSegs.empty }

/-- Malformed save data: `settings` present (with a different value) but the
required `graphPaper` key missing. -/
def c9_bad_save : Vg.SaveData :=
  { settings := some { setting_lock_ortho := true, setting_show_debugHud := true },
    graphPaper := none, lineSegs := none }

/-- Claim C9 counterexample: loading malformed data (missing `graphPaper` key) into
`c9_game0` fails — but the in-memory state carried at the failure already has
`settings` replaced, so it is *not* the unchanged original state: load is not
all-or-nothing. -/
theorem claim_c9_counterexample :
    Vg.Game.load c9_game0 c9_bad_save
      = Except.error
          { c9_game0 with
            settings := { setting_lock_ortho := true, setting_show_debugHud := true } }
  ∧ ({ c9_game0 with
        settings := { setting_lock_ortho := true, setting_show_debugHud := true } } : Vg.Game)
      ≠ c9_game0 := by
  refine ⟨rfl, ?_⟩
  decide

/-- Claim C9 amended: when the save data is malformed, the `KeyError`/`IndexError`
escapes `load` uncaught, and the in-memory state keeps every assignment made
before the failing access — load is not all-or-nothing.  Concretely: with
`settings` missing nothing is yet mutated; with `graphPaper` missing the new
`settings` is already installed; with `lineSegs` missing, `settings` and
`graphPaper` are installed and `lineSegs` is already reset to empty; with a
history entry of fewer than two fields, the successfully replayed prefix of
records remains (and the saved `head` is never applied). -/
theorem claim_c9_load_not_all_or_nothing (g : Vg.Game) (s : Vg.Settings)
    (gp : Vg.GraphPaper) (d1 : Option Vg.GraphPaper) (d2 d2' : Option Vg.SaveLineSegs)
    (hd : Option Nat) (s0 e0 : Option (Int × Int))
    (rest : List (List (Option (Int × Int)))) :
    Vg.Game.load g ⟨none, d1, d2⟩ = Except.error g
  ∧ Vg.Game.load g ⟨some s, none, d2'⟩ = Except.error { g with settings := s }
  ∧ Vg.Game.load g ⟨some s, some gp, none⟩
      = Except.error { g with settings := s, graphPaper := gp, lineSegs := Vg.LineSegs.empty }
  ∧ Vg.Game.load g ⟨some s, some gp, some ⟨hd, [] :: rest⟩⟩
      = Except.error { g with settings := s, graphPaper := gp, lineSegs := Vg.LineSegs.empty }
  ∧ Vg.Game.load g ⟨some s, some gp, some ⟨hd, [s0, e0] :: [] :: rest⟩⟩
      = Except.error
          { g with settings := s, graphPaper := gp,
                   lineSegs := Vg.LineSegs.record Vg.LineSegs.empty ⟨s0, e0⟩ } :=
  ⟨rfl, rfl, rfl, rfl, rfl⟩
